import Mathlib

/-!
Shallow embedding of the editing-history core of the note application
(`src/App.tsx`): per-note undo/redo stacks (`HistoryState`), a debounced
typing-session timer (`typingTimeoutRef`), and the handlers that mutate
them (`saveToHistory`, `handleTextChange`, `handleUndo`, `handleRedo`,
`handleDeleteNote`, the focus-change effect, and the keyboard-shortcut
handler).  Time is modelled as a `Nat` of milliseconds; the single-slot
timer is modelled by the absolute instant at which its callback would
fire (`none` = idle slot), and an event loop fires the callback before
dispatching any event whose timestamp is at or past that instant.
-/

/-- `NoteSnapshot` from `App.tsx`: the editable fields captured by history. -/
structure NoteSnapshot where
  title : String
  content : String
deriving Repr, DecidableEq

/-- `HistoryState` from `App.tsx`: the per-note undo stack (`past`, oldest
first) and redo stack (`future`, soonest-redo first). -/
structure HistoryState where
  past : List NoteSnapshot
  future : List NoteSnapshot
deriving Repr, DecidableEq

/-- `Note` from `types.ts`. -/
structure Note where
  id : String
  title : String
  content : String
  excerpt : String
  updatedAt : Nat
  createdAt : Nat
  isFavorite : Bool
deriving Repr, DecidableEq

/-- The JS object `Record<string, HistoryState>` as an association list with
unique keys (a JS object cannot hold a key twice). -/
abbrev HistMap := List (String × HistoryState)

/-- JS property read `h[id]`: `none` when the key is absent. -/
def lookupHistory : HistMap → String → Option HistoryState
  | [], _ => none
  | p :: rest, id => if p.fst = id then some p.snd else lookupHistory rest id

/-- JS spread update of a record at key `id`: replaces the binding in place
when present (object keys keep their position), otherwise adds it. -/
def setHistoryEntry : HistMap → String → HistoryState → HistMap
  | [], id, v => [(id, v)]
  | p :: rest, id, v =>
    if p.fst = id then (id, v) :: rest else p :: setHistoryEntry rest id v

/-- JS `delete h[id]`: removes the binding for `id` when present. -/
def deleteHistoryEntry : HistMap → String → HistMap
  | [], _ => []
  | p :: rest, id =>
    if p.fst = id then deleteHistoryEntry rest id else p :: deleteHistoryEntry rest id

/-- The idiom `prev[note.id] || { past: [], future: [] }` used by
`saveToHistory`: a missing record reads as the empty record. -/
def getHistory (h : HistMap) (id : String) : HistoryState :=
  (lookupHistory h id).getD ⟨[], []⟩

/-- Length of the undo stack of the (possibly missing) record for `id`. -/
def pastLen (h : HistMap) (id : String) : Nat :=
  (getHistory h id).past.length

/-- Length of the redo stack of the (possibly missing) record for `id`. -/
def futureLen (h : HistMap) (id : String) : Nat :=
  (getHistory h id).future.length

/-- The slice of the component state that the history core reads and writes:
the notes list, the selected note id, the history map, and the debounced
typing timer (the absolute firing instant of the pending callback, `none`
when the slot is idle). -/
structure AppState where
  notes : List Note
  selectedNoteId : Option String
  history : HistMap
  typingTimeout : Option Nat
deriving Repr, DecidableEq

/-- The `selectedNote` memo: `notes.find(n => n.id === selectedNoteId) || null`. -/
def selectedNote (s : AppState) : Option Note :=
  match s.selectedNoteId with
  | none => none
  | some id => s.notes.find? (fun n => n.id == id)

/-- The expression `history[id]?.past.length > 0` (with `id` a present,
non-null note id); in JS a missing record gives `undefined > 0`, i.e. false. -/
def canUndoFor (h : HistMap) (id : String) : Bool :=
  match lookupHistory h id with
  | none => false
  | some nh => decide (0 < nh.past.length)

/-- The expression `history[id]?.future.length > 0`, as in `canRedoFor`'s
`canRedo` counterpart. -/
def canRedoFor (h : HistMap) (id : String) : Bool :=
  match lookupHistory h id with
  | none => false
  | some nh => decide (0 < nh.future.length)

/-- `canUndo`: `selectedNoteId ? (history[selectedNoteId]?.past.length > 0) : false`. -/
def canUndo (s : AppState) : Bool :=
  match s.selectedNoteId with
  | none => false
  | some id => canUndoFor s.history id

/-- `canRedo`: `selectedNoteId ? (history[selectedNoteId]?.future.length > 0) : false`. -/
def canRedo (s : AppState) : Bool :=
  match s.selectedNoteId with
  | none => false
  | some id => canRedoFor s.history id

/-- A `Partial<Note>` restricted to the fields the history core ever writes
through `updateNoteState` (`title`, `content`, `excerpt`); `none` means the
field is absent from the update object. -/
structure NoteUpdates where
  title : Option String
  content : Option String
  excerpt : Option String
deriving Repr, DecidableEq

/-- The object spread `{ ...n, ...updates, updatedAt: Date.now() }` inside
`updateNoteState`, at current time `now`. -/
def applyUpdates (n : Note) (u : NoteUpdates) (now : Nat) : Note :=
  { n with
    title := u.title.getD n.title
    content := u.content.getD n.content
    excerpt := u.excerpt.getD n.excerpt
    updatedAt := now }

/-- `updateNoteState`: maps over the notes, merging the updates into the note
with the given id and stamping its `updatedAt`. -/
def updateNoteState (notes : List Note) (id : String) (u : NoteUpdates) (now : Nat) : List Note :=
  notes.map (fun n => if n.id = id then applyUpdates n u now else n)

/-- `saveToHistory`: append the note's current snapshot to its `past` and
clear its `future`; the record is created on first use. -/
def saveToHistory (h : HistMap) (note : Note) : HistMap :=
  let noteHistory := getHistory h note.id
  let snapshot : NoteSnapshot := ⟨note.title, note.content⟩
  setHistoryEntry h note.id ⟨noteHistory.past ++ [snapshot], []⟩

/-- Which field a `handleTextChange` call edits (`key` in the source). -/
inductive EditField where
  | title
  | content
deriving Repr, DecidableEq

/-- `value.substring(0, 100)`, the derived excerpt of a content edit. -/
def excerptOf (value : String) : String :=
  value.take 100

/-- The update object built by `handleTextChange`:
`{ [key]: value, excerpt: key === 'content' ? value.substring(0, 100) : selectedNote.excerpt }`. -/
def editUpdates (field : EditField) (value : String) (note : Note) : NoteUpdates :=
  match field with
  | .title => ⟨some value, none, some note.excerpt⟩
  | .content => ⟨none, some value, some (excerptOf value)⟩

/-- `handleTextChange` at current time `t`: no-op without a selected note;
when the timer slot is idle the edit starts a session and pushes a snapshot
via `saveToHistory`; in every case the timer is re-armed to fire at
`t + 1000` and the edited field (plus the derived excerpt) is written
through `updateNoteState`. -/
def handleTextChange (t : Nat) (field : EditField) (value : String) (s : AppState) : AppState :=
  match selectedNote s with
  | none => s
  | some note =>
    let h1 := if s.typingTimeout = none then saveToHistory s.history note else s.history
    { s with
      history := h1
      typingTimeout := some (t + 1000)
      notes := updateNoteState s.notes note.id (editUpdates field value note) t }

/-- `handleUndo` at time `t`: no-op unless a note is selected whose record
has a non-empty `past`; otherwise pops the last `past` entry, pushes the
current snapshot onto the front of `future`, and applies the popped snapshot
to the note via `updateNoteState`. -/
def handleUndo (t : Nat) (s : AppState) : AppState :=
  match selectedNote s with
  | none => s
  | some note =>
    match lookupHistory s.history note.id with
    | none => s
    | some noteHistory =>
      match noteHistory.past.getLast? with
      | none => s
      | some previous =>
        let newPast := noteHistory.past.dropLast
        let currentSnapshot : NoteSnapshot := ⟨note.title, note.content⟩
        { s with
          history := setHistoryEntry s.history note.id ⟨newPast, currentSnapshot :: noteHistory.future⟩
          notes := updateNoteState s.notes note.id ⟨some previous.title, some previous.content, none⟩ t }

/-- `handleRedo` at time `t`: no-op unless a note is selected whose record
has a non-empty `future`; otherwise pops the first `future` entry, appends
the current snapshot to `past`, and applies the popped snapshot. -/
def handleRedo (t : Nat) (s : AppState) : AppState :=
  match selectedNote s with
  | none => s
  | some note =>
    match lookupHistory s.history note.id with
    | none => s
    | some noteHistory =>
      match noteHistory.future with
      | [] => s
      | next :: newFuture =>
        let currentSnapshot : NoteSnapshot := ⟨note.title, note.content⟩
        { s with
          history := setHistoryEntry s.history note.id ⟨noteHistory.past ++ [currentSnapshot], newFuture⟩
          notes := updateNoteState s.notes note.id ⟨some next.title, some next.content, none⟩ t }

/-- `handleDeleteNote`, guarded by `window.confirm`: when confirmed it filters
the note out, deselects it if it was selected, and deletes its history record. -/
def handleDeleteNote (confirmed : Bool) (id : String) (s : AppState) : AppState :=
  if confirmed then
    { s with
      notes := s.notes.filter (fun n => !(n.id == id))
      selectedNoteId := if s.selectedNoteId = some id then none else s.selectedNoteId
      history := deleteHistoryEntry s.history id }
  else s

/-- `setSelectedNoteId` together with the effect keyed on `selectedNoteId`
that clears the pending typing timer; the effect re-runs exactly when the
selected id changes. -/
def selectNote (id : Option String) (s : AppState) : AppState :=
  if s.selectedNoteId = id then s
  else { s with selectedNoteId := id, typingTimeout := none }

/-- The `setTimeout` callback scheduled by `handleTextChange` nulls the timer
slot when it fires, so an event arriving at time `t` observes an idle slot
whenever the scheduled firing instant is at or before `t`. -/
def fireTimerAt (t : Nat) (timer : Option Nat) : Option Nat :=
  match timer with
  | none => none
  | some e => if e ≤ t then none else some e

/-- The discrete UI events the history core reacts to. -/
inductive Event where
  | edit (field : EditField) (value : String)
  | undo
  | redo
  | select (id : Option String)
  | deleteNote (confirmed : Bool) (id : String)
deriving Repr, DecidableEq

/-- Dispatch one timestamped event on the single logical thread: the timer
callback fires first if due, then the corresponding handler runs. -/
def stepEvent (s : AppState) (te : Nat × Event) : AppState :=
  let s1 := { s with typingTimeout := fireTimerAt te.fst s.typingTimeout }
  match te.snd with
  | .edit f v => handleTextChange te.fst f v s1
  | .undo => handleUndo te.fst s1
  | .redo => handleRedo te.fst s1
  | .select id => selectNote id s1
  | .deleteNote c id => handleDeleteNote c id s1

/-- Run a timestamped event trace in order. -/
def runEvents (s : AppState) (es : List (Nat × Event)) : AppState :=
  es.foldl stepEvent s

/-- A trace of edits only, as timestamped `Event.edit`s. -/
def editEvents (es : List (Nat × EditField × String)) : List (Nat × Event) :=
  es.map (fun e => (e.fst, Event.edit e.snd.fst e.snd.snd))

/-- Every listed edit happens no earlier than the previous one and within
the 1000 ms quiet interval of it. -/
def gapsUnder : Nat → List (Nat × EditField × String) → Bool
  | _, [] => true
  | tprev, (t, _, _) :: rest =>
    decide (tprev ≤ t) && decide (t < tprev + 1000) && gapsUnder t rest

/-- A `KeyboardEvent` restricted to the fields `handleKeyDown` reads. -/
structure KeyEvent where
  metaKey : Bool
  ctrlKey : Bool
  shiftKey : Bool
  key : String
deriving Repr, DecidableEq

/-- What the keyboard-shortcut handler decides to invoke. -/
inductive KeyAction where
  | undoAction
  | redoAction
  | noAction
deriving Repr, DecidableEq

/-- The `handleKeyDown` shortcut handler: it bails out unless a note is
selected (`!selectedNoteId` is JS-truthy for both null and the empty
string); then modifier+z maps to undo, or to redo when shift is held, and
modifier+y maps to redo. -/
def handleKeyDown (selectedNoteId : Option String) (e : KeyEvent) : KeyAction :=
  match selectedNoteId with
  | none => .noAction
  | some id =>
    if id = "" then .noAction
    else if (e.metaKey || e.ctrlKey) && e.key == "z" then
      (if e.shiftKey then .redoAction else .undoAction)
    else if (e.metaKey || e.ctrlKey) && e.key == "y" then .redoAction
    else .noAction

/-! ### Association-list lemmas for the history record map -/

theorem lookupHistory_setHistoryEntry_self (h : HistMap) (id : String) (v : HistoryState) :
    lookupHistory (setHistoryEntry h id v) id = some v := by
  induction h with
  | nil => simp [setHistoryEntry, lookupHistory]
  | cons p rest ih =>
    by_cases hp : p.fst = id
    · simp [setHistoryEntry, lookupHistory, hp]
    · simp [setHistoryEntry, lookupHistory, hp, ih]

theorem lookupHistory_setHistoryEntry_ne (h : HistMap) (id id' : String) (v : HistoryState)
    (hne : id' ≠ id) :
    lookupHistory (setHistoryEntry h id v) id' = lookupHistory h id' := by
  induction h with
  | nil => simp [setHistoryEntry, lookupHistory, Ne.symm hne]
  | cons p rest ih =>
    by_cases hp : p.fst = id
    · have hp' : ¬p.fst = id' := by rw [hp]; exact Ne.symm hne
      simp [setHistoryEntry, lookupHistory, hp, hp', Ne.symm hne]
    · simp [setHistoryEntry, lookupHistory, hp, ih]

theorem lookupHistory_deleteHistoryEntry_self (h : HistMap) (id : String) :
    lookupHistory (deleteHistoryEntry h id) id = none := by
  induction h with
  | nil => simp [deleteHistoryEntry, lookupHistory]
  | cons p rest ih =>
    by_cases hp : p.fst = id
    · simp [deleteHistoryEntry, hp, ih]
    · simp [deleteHistoryEntry, lookupHistory, hp, ih]

theorem deleteHistoryEntry_absent (h : HistMap) (id : String)
    (habs : lookupHistory h id = none) :
    deleteHistoryEntry h id = h := by
  induction h with
  | nil => rfl
  | cons p rest ih =>
    by_cases hp : p.fst = id
    · simp [lookupHistory, hp] at habs
    · simp [lookupHistory, hp] at habs
      simp [deleteHistoryEntry, hp, ih habs]

theorem deleteHistoryEntry_idem (h : HistMap) (id : String) :
    deleteHistoryEntry (deleteHistoryEntry h id) id = deleteHistoryEntry h id :=
  deleteHistoryEntry_absent _ _ (lookupHistory_deleteHistoryEntry_self h id)

/-! ### Lemmas about `updateNoteState` and `selectedNote` -/

theorem applyUpdates_id (n : Note) (u : NoteUpdates) (t : Nat) :
    (applyUpdates n u t).id = n.id := rfl

theorem find?_updateNoteState (notes : List Note) (q id : String) (u : NoteUpdates) (t : Nat) :
    (updateNoteState notes id u t).find? (fun n => n.id == q)
      = (notes.find? (fun n => n.id == q)).map
          (fun n => if n.id = id then applyUpdates n u t else n) := by
  induction notes with
  | nil => rfl
  | cons a l ih =>
    have hid : (if a.id = id then applyUpdates a u t else a).id = a.id := by
      by_cases h : a.id = id <;> simp [h, applyUpdates_id]
    show ((if a.id = id then applyUpdates a u t else a) :: updateNoteState l id u t).find?
        (fun n => n.id == q) = _
    by_cases hq : a.id = q
    · rw [List.find?_cons_of_pos _ (by simp only [beq_iff_eq]; rw [hid]; exact hq),
        List.find?_cons_of_pos _ (by simp only [beq_iff_eq]; exact hq)]
      rfl
    · rw [List.find?_cons_of_neg _ (by simp only [beq_iff_eq]; rw [hid]; exact hq),
        List.find?_cons_of_neg _ (by simp only [beq_iff_eq]; exact hq), ih]

theorem selectedNote_update (s s' : AppState) (note : Note) (u : NoteUpdates) (t : Nat)
    (hsel : selectedNote s = some note)
    (hn : s'.notes = updateNoteState s.notes note.id u t)
    (hid : s'.selectedNoteId = s.selectedNoteId) :
    selectedNote s' = some (applyUpdates note u t) := by
  cases hq : s.selectedNoteId with
  | none => simp [selectedNote, hq] at hsel
  | some q =>
    simp only [selectedNote, hq] at hsel
    have hnq : note.id = q := by simpa using List.find?_some hsel
    simp only [selectedNote, hid, hq, hn]
    rw [find?_updateNoteState, hsel]
    simp [hnq]

/-! ### Equational characterizations of the handlers -/

theorem handleUndo_eq (t : Nat) (s : AppState) (note : Note) (nh : HistoryState)
    (ps : List NoteSnapshot) (r : NoteSnapshot)
    (hsel : selectedNote s = some note)
    (hlook : lookupHistory s.history note.id = some nh)
    (hpast : nh.past = ps ++ [r]) :
    handleUndo t s =
      { s with
        history := setHistoryEntry s.history note.id
          ⟨ps, ⟨note.title, note.content⟩ :: nh.future⟩
        notes := updateNoteState s.notes note.id ⟨some r.title, some r.content, none⟩ t } := by
  simp only [handleUndo, hsel, hlook, hpast, List.getLast?_concat, List.dropLast_concat]

theorem handleRedo_eq (t : Nat) (s : AppState) (note : Note) (nh : HistoryState)
    (r : NoteSnapshot) (fs : List NoteSnapshot)
    (hsel : selectedNote s = some note)
    (hlook : lookupHistory s.history note.id = some nh)
    (hfut : nh.future = r :: fs) :
    handleRedo t s =
      { s with
        history := setHistoryEntry s.history note.id
          ⟨nh.past ++ [⟨note.title, note.content⟩], fs⟩
        notes := updateNoteState s.notes note.id ⟨some r.title, some r.content, none⟩ t } := by
  simp only [handleRedo, hsel, hlook, hfut]

theorem handleUndo_noop (t : Nat) (s : AppState) (note : Note)
    (hsel : selectedNote s = some note)
    (hpast : (getHistory s.history note.id).past = []) :
    handleUndo t s = s := by
  cases hlook : lookupHistory s.history note.id with
  | none => simp only [handleUndo, hsel, hlook]
  | some nh =>
    have hnil : nh.past = [] := by
      unfold getHistory at hpast
      rw [hlook] at hpast
      exact hpast
    simp only [handleUndo, hsel, hlook, hnil, List.getLast?_nil]

theorem handleRedo_noop (t : Nat) (s : AppState) (note : Note)
    (hsel : selectedNote s = some note)
    (hfut : (getHistory s.history note.id).future = []) :
    handleRedo t s = s := by
  cases hlook : lookupHistory s.history note.id with
  | none => simp only [handleRedo, hsel, hlook]
  | some nh =>
    have hnil : nh.future = [] := by
      unfold getHistory at hfut
      rw [hlook] at hfut
      exact hfut
    simp only [handleRedo, hsel, hlook, hnil]

theorem handleTextChange_idle (t : Nat) (f : EditField) (v : String) (s : AppState) (note : Note)
    (hsel : selectedNote s = some note)
    (htm : s.typingTimeout = none) :
    handleTextChange t f v s =
      { s with
        history := saveToHistory s.history note
        typingTimeout := some (t + 1000)
        notes := updateNoteState s.notes note.id (editUpdates f v note) t } := by
  simp only [handleTextChange, hsel, htm, if_pos]

theorem handleTextChange_pending (t : Nat) (f : EditField) (v : String) (s : AppState) (note : Note)
    (hsel : selectedNote s = some note)
    (htm : s.typingTimeout ≠ none) :
    handleTextChange t f v s =
      { s with
        typingTimeout := some (t + 1000)
        notes := updateNoteState s.notes note.id (editUpdates f v note) t } := by
  simp only [handleTextChange, hsel, htm, if_neg, ite_false]

theorem handleUndo_typingTimeout (t : Nat) (s : AppState) :
    (handleUndo t s).typingTimeout = s.typingTimeout := by
  cases hsel : selectedNote s with
  | none => simp only [handleUndo, hsel]
  | some note =>
    cases hlook : lookupHistory s.history note.id with
    | none => simp only [handleUndo, hsel, hlook]
    | some nh =>
      cases hlast : nh.past.getLast? with
      | none => simp only [handleUndo, hsel, hlook, hlast]
      | some previous => simp only [handleUndo, hsel, hlook, hlast]

theorem handleRedo_typingTimeout (t : Nat) (s : AppState) :
    (handleRedo t s).typingTimeout = s.typingTimeout := by
  cases hsel : selectedNote s with
  | none => simp only [handleRedo, hsel]
  | some note =>
    cases hlook : lookupHistory s.history note.id with
    | none => simp only [handleRedo, hsel, hlook]
    | some nh =>
      cases hfut : nh.future with
      | nil => simp only [handleRedo, hsel, hlook, hfut]
      | cons next newFuture => simp only [handleRedo, hsel, hlook, hfut]

/-! ### Claim theorems -/

/-- C1: for a selected note whose record has a non-empty `past`, `handleUndo`
pops the last `past` entry as the restored snapshot, pushes the current
`{title, content}` snapshot onto the front of `future`, and applies the
restored snapshot to the note; symmetrically, with a non-empty `future`,
`handleRedo` pops the first `future` entry, appends the current snapshot to
the end of `past`, and applies the popped snapshot — so undo is the
transition `(p, f) -> (p-1, f+1)` and redo is `(p, f) -> (p+1, f-1)` on the
stack lengths. -/
theorem undo_redo_stack_transitions :
    (∀ (t : Nat) (s : AppState) (note : Note) (nh : HistoryState)
        (ps : List NoteSnapshot) (r : NoteSnapshot),
      selectedNote s = some note →
      lookupHistory s.history note.id = some nh →
      nh.past = ps ++ [r] →
      lookupHistory (handleUndo t s).history note.id
          = some ⟨ps, ⟨note.title, note.content⟩ :: nh.future⟩ ∧
      selectedNote (handleUndo t s)
          = some { note with title := r.title, content := r.content, updatedAt := t } ∧
      pastLen (handleUndo t s).history note.id + 1 = pastLen s.history note.id ∧
      futureLen (handleUndo t s).history note.id = futureLen s.history note.id + 1) ∧
    (∀ (t : Nat) (s : AppState) (note : Note) (nh : HistoryState)
        (r : NoteSnapshot) (fs : List NoteSnapshot),
      selectedNote s = some note →
      lookupHistory s.history note.id = some nh →
      nh.future = r :: fs →
      lookupHistory (handleRedo t s).history note.id
          = some ⟨nh.past ++ [⟨note.title, note.content⟩], fs⟩ ∧
      selectedNote (handleRedo t s)
          = some { note with title := r.title, content := r.content, updatedAt := t } ∧
      pastLen (handleRedo t s).history note.id = pastLen s.history note.id + 1 ∧
      futureLen (handleRedo t s).history note.id + 1 = futureLen s.history note.id) := by
  constructor
  · intro t s note nh ps r hsel hlook hpast
    rw [handleUndo_eq t s note nh ps r hsel hlook hpast]
    refine ⟨lookupHistory_setHistoryEntry_self _ _ _,
      selectedNote_update s _ note ⟨some r.title, some r.content, none⟩ t hsel rfl rfl,
      ?_, ?_⟩
    · simp [pastLen, getHistory, lookupHistory_setHistoryEntry_self, hlook, hpast]
    · simp [futureLen, getHistory, lookupHistory_setHistoryEntry_self, hlook]
  · intro t s note nh r fs hsel hlook hfut
    rw [handleRedo_eq t s note nh r fs hsel hlook hfut]
    refine ⟨lookupHistory_setHistoryEntry_self _ _ _,
      selectedNote_update s _ note ⟨some r.title, some r.content, none⟩ t hsel rfl rfl,
      ?_, ?_⟩
    · simp [pastLen, getHistory, lookupHistory_setHistoryEntry_self, hlook]
    · simp [futureLen, getHistory, lookupHistory_setHistoryEntry_self, hlook, hfut]

set_option maxRecDepth 8000 in
/-- Witness for C1 on a concrete state: one saved snapshot, one redoable
snapshot, a selected note `n1`. -/
theorem undo_redo_stack_transitions_witness :
    lookupHistory (handleUndo 7 ⟨[⟨"n1", "T1", "C1", "E", 5, 1, false⟩], some "n1",
        [("n1", ⟨[⟨"T0", "C0"⟩], [⟨"T2", "C2"⟩]⟩)], none⟩).history "n1"
      = some ⟨[], [⟨"T1", "C1"⟩, ⟨"T2", "C2"⟩]⟩ ∧
    pastLen (handleRedo 7 ⟨[⟨"n1", "T1", "C1", "E", 5, 1, false⟩], some "n1",
        [("n1", ⟨[⟨"T0", "C0"⟩], [⟨"T2", "C2"⟩]⟩)], none⟩).history "n1"
      = pastLen (⟨[⟨"n1", "T1", "C1", "E", 5, 1, false⟩], some "n1",
        [("n1", ⟨[⟨"T0", "C0"⟩], [⟨"T2", "C2"⟩]⟩)], none⟩ : AppState).history "n1" + 1 := by
  constructor
  · exact (undo_redo_stack_transitions.1 7
      ⟨[⟨"n1", "T1", "C1", "E", 5, 1, false⟩], some "n1",
        [("n1", ⟨[⟨"T0", "C0"⟩], [⟨"T2", "C2"⟩]⟩)], none⟩
      ⟨"n1", "T1", "C1", "E", 5, 1, false⟩
      ⟨[⟨"T0", "C0"⟩], [⟨"T2", "C2"⟩]⟩ [] ⟨"T0", "C0"⟩
      (by decide) (by decide) rfl).1
  · exact (undo_redo_stack_transitions.2 7
      ⟨[⟨"n1", "T1", "C1", "E", 5, 1, false⟩], some "n1",
        [("n1", ⟨[⟨"T0", "C0"⟩], [⟨"T2", "C2"⟩]⟩)], none⟩
      ⟨"n1", "T1", "C1", "E", 5, 1, false⟩
      ⟨[⟨"T0", "C0"⟩], [⟨"T2", "C2"⟩]⟩ ⟨"T2", "C2"⟩ []
      (by decide) (by decide) rfl).2.2.1

/-- C6: a change of the focused note cancels any pending typing timer without
pushing a snapshot, and leaves the history map and the notes untouched, so
every document's record survives focus switches. -/
theorem focus_change_frame :
    ∀ (s : AppState) (id : Option String),
      (selectNote id s).history = s.history ∧
      (selectNote id s).notes = s.notes ∧
      (s.selectedNoteId ≠ id → (selectNote id s).typingTimeout = none) := by
  intro s id
  unfold selectNote
  by_cases h : s.selectedNoteId = id
  · simp [h]
  · simp [h]

/-- Witness for C6: switching from note `a` to note `b` with a pending timer
idles the timer and keeps the history map. -/
theorem focus_change_frame_witness :
    (selectNote (some "b") ⟨[], some "a", [("a", ⟨[⟨"t", "c"⟩], []⟩)], some 42⟩).typingTimeout
      = none ∧
    (selectNote (some "b") ⟨[], some "a", [("a", ⟨[⟨"t", "c"⟩], []⟩)], some 42⟩).history
      = [("a", ⟨[⟨"t", "c"⟩], []⟩)] := by
  constructor
  · exact (focus_change_frame ⟨[], some "a", [("a", ⟨[⟨"t", "c"⟩], []⟩)], some 42⟩
      (some "b")).2.2 (by decide)
  · exact (focus_change_frame ⟨[], some "a", [("a", ⟨[⟨"t", "c"⟩], []⟩)], some 42⟩
      (some "b")).1

/-- C7: undo on a selected note with empty `past`, and redo with empty
`future`, return the state unchanged (silent no-ops); and the availability
predicates read non-emptiness of `past` and `future` respectively, a missing
record counting as empty. -/
theorem idle_noops_and_availability :
    (∀ (t : Nat) (s : AppState) (note : Note),
      selectedNote s = some note →
      (getHistory s.history note.id).past = [] →
      handleUndo t s = s) ∧
    (∀ (t : Nat) (s : AppState) (note : Note),
      selectedNote s = some note →
      (getHistory s.history note.id).future = [] →
      handleRedo t s = s) ∧
    (∀ (h : HistMap) (id : String), canUndoFor h id = true ↔ (getHistory h id).past ≠ []) ∧
    (∀ (h : HistMap) (id : String), canRedoFor h id = true ↔ (getHistory h id).future ≠ []) := by
  refine ⟨handleUndo_noop, handleRedo_noop, ?_, ?_⟩
  · intro h id
    cases hlook : lookupHistory h id with
    | none => simp [canUndoFor, getHistory, hlook]
    | some nh => simp [canUndoFor, getHistory, hlook, List.length_pos]
  · intro h id
    cases hlook : lookupHistory h id with
    | none => simp [canRedoFor, getHistory, hlook]
    | some nh => simp [canRedoFor, getHistory, hlook, List.length_pos]

/-- Witness for C7: on a note with no history record, undo and redo at t = 3
leave the state exactly as it was. -/
theorem idle_noops_and_availability_witness :
    handleUndo 3 ⟨[⟨"n1", "T", "C", "E", 0, 0, false⟩], some "n1", [], none⟩
      = ⟨[⟨"n1", "T", "C", "E", 0, 0, false⟩], some "n1", [], none⟩ ∧
    handleRedo 3 ⟨[⟨"n1", "T", "C", "E", 0, 0, false⟩], some "n1", [], none⟩
      = ⟨[⟨"n1", "T", "C", "E", 0, 0, false⟩], some "n1", [], none⟩ := by
  constructor
  · exact idle_noops_and_availability.1 3
      ⟨[⟨"n1", "T", "C", "E", 0, 0, false⟩], some "n1", [], none⟩
      ⟨"n1", "T", "C", "E", 0, 0, false⟩ (by decide) rfl
  · exact idle_noops_and_availability.2.1 3
      ⟨[⟨"n1", "T", "C", "E", 0, 0, false⟩], some "n1", [], none⟩
      ⟨"n1", "T", "C", "E", 0, 0, false⟩ (by decide) rfl

/-- C8: a confirmed delete of note `id` removes its history record entirely,
so both availability predicates report false for `id` afterwards; removing an
absent record is a no-op, and removal is idempotent. -/
theorem history_purge :
    (∀ (s : AppState) (id : String),
      lookupHistory (handleDeleteNote true id s).history id = none ∧
      canUndoFor (handleDeleteNote true id s).history id = false ∧
      canRedoFor (handleDeleteNote true id s).history id = false) ∧
    (∀ (h : HistMap) (id : String),
      lookupHistory h id = none → deleteHistoryEntry h id = h) ∧
    (∀ (h : HistMap) (id : String),
      deleteHistoryEntry (deleteHistoryEntry h id) id = deleteHistoryEntry h id) := by
  refine ⟨?_, deleteHistoryEntry_absent, deleteHistoryEntry_idem⟩
  intro s id
  have h1 : lookupHistory (handleDeleteNote true id s).history id = none :=
    lookupHistory_deleteHistoryEntry_self s.history id
  exact ⟨h1, by simp [canUndoFor, h1], by simp [canRedoFor, h1]⟩

/-- Witness for C8: deleting the history of `b`, which has no record, changes
nothing. -/
theorem history_purge_witness :
    deleteHistoryEntry [("a", ⟨[⟨"t", "c"⟩], []⟩)] "b" = [("a", ⟨[⟨"t", "c"⟩], []⟩)] :=
  history_purge.2.1 [("a", ⟨[⟨"t", "c"⟩], []⟩)] "b" (by decide)

/-- C9: while a note is selected, the shortcut handler maps modifier+z to
undo, modifier+shift+z to redo, and modifier+y to redo. -/
theorem keyboard_shortcuts :
    ∀ (id : String) (e : KeyEvent),
      id ≠ "" →
      (e.metaKey || e.ctrlKey) = true →
      ((e.key = "z" → e.shiftKey = false → handleKeyDown (some id) e = KeyAction.undoAction) ∧
       (e.key = "z" → e.shiftKey = true → handleKeyDown (some id) e = KeyAction.redoAction) ∧
       (e.key = "y" → handleKeyDown (some id) e = KeyAction.redoAction)) := by
  intro id e hid hmod
  refine ⟨?_, ?_, ?_⟩
  · intro hk hs
    simp [handleKeyDown, hid, hmod, hk, hs]
  · intro hk hs
    simp [handleKeyDown, hid, hmod, hk, hs]
  · intro hk
    simp [handleKeyDown, hid, hmod, hk]

/-- Witness for C9: ctrl+z undoes, ctrl+shift+z and ctrl+y redo. -/
theorem keyboard_shortcuts_witness :
    handleKeyDown (some "n1") ⟨false, true, false, "z"⟩ = KeyAction.undoAction ∧
    handleKeyDown (some "n1") ⟨false, true, true, "z"⟩ = KeyAction.redoAction ∧
    handleKeyDown (some "n1") ⟨false, true, false, "y"⟩ = KeyAction.redoAction := by
  refine ⟨?_, ?_, ?_⟩
  · exact (keyboard_shortcuts "n1" ⟨false, true, false, "z"⟩ (by decide) rfl).1 rfl rfl
  · exact (keyboard_shortcuts "n1" ⟨false, true, true, "z"⟩ (by decide) rfl).2.1 rfl rfl
  · exact (keyboard_shortcuts "n1" ⟨false, true, false, "y"⟩ (by decide) rfl).2.2 rfl

/-- C2: the session-start push `saveToHistory` appends the pre-edit snapshot
to the end of the document's `past` and resets its `future` to empty whatever
it previously held, touching no other record; and it is the only operation
that discards `future` entries: undo leaves every record's old `future`
intact (as a suffix of the new one), redo removes at most the one popped head
(the new `future` is the old one or its tail), and a focus change leaves the
whole history map unchanged. In particular, after an undo that left `future`
non-empty, the next session-start push empties it. -/
theorem push_clears_future :
    (∀ (h : HistMap) (note : Note),
      lookupHistory (saveToHistory h note) note.id
        = some ⟨(getHistory h note.id).past ++ [⟨note.title, note.content⟩], []⟩) ∧
    (∀ (h : HistMap) (note : Note) (id : String), id ≠ note.id →
      lookupHistory (saveToHistory h note) id = lookupHistory h id) ∧
    (∀ (t : Nat) (s : AppState) (id : String),
      (getHistory (handleUndo t s).history id).future = (getHistory s.history id).future ∨
      ∃ cur, (getHistory (handleUndo t s).history id).future
        = cur :: (getHistory s.history id).future) ∧
    (∀ (t : Nat) (s : AppState) (id : String),
      (getHistory (handleRedo t s).history id).future = (getHistory s.history id).future ∨
      (getHistory (handleRedo t s).history id).future
        = (getHistory s.history id).future.tail) ∧
    (∀ (id : Option String) (s : AppState), (selectNote id s).history = s.history) ∧
    (∀ (h : HistMap) (note : Note), (getHistory (saveToHistory h note) note.id).future = []) := by
  have hsave : ∀ (h : HistMap) (note : Note),
      lookupHistory (saveToHistory h note) note.id
        = some ⟨(getHistory h note.id).past ++ [⟨note.title, note.content⟩], []⟩ := by
    intro h note
    exact lookupHistory_setHistoryEntry_self _ _ _
  refine ⟨hsave, ?_, ?_, ?_, ?_, ?_⟩
  · intro h note id hne
    exact lookupHistory_setHistoryEntry_ne _ _ _ _ hne
  · intro t s id
    cases hsel : selectedNote s with
    | none => left; simp [handleUndo, hsel]
    | some note =>
      cases hlook : lookupHistory s.history note.id with
      | none => left; simp [handleUndo, hsel, hlook]
      | some nh =>
        cases hlast : nh.past.getLast? with
        | none => left; simp [handleUndo, hsel, hlook, hlast]
        | some previous =>
          simp only [handleUndo, hsel, hlook, hlast]
          by_cases hid : id = note.id
          · right
            refine ⟨⟨note.title, note.content⟩, ?_⟩
            subst hid
            simp [getHistory, lookupHistory_setHistoryEntry_self, hlook]
          · left
            simp [getHistory, lookupHistory_setHistoryEntry_ne _ _ _ _ hid]
  · intro t s id
    cases hsel : selectedNote s with
    | none => left; simp [handleRedo, hsel]
    | some note =>
      cases hlook : lookupHistory s.history note.id with
      | none => left; simp [handleRedo, hsel, hlook]
      | some nh =>
        cases hfut : nh.future with
        | nil => left; simp [handleRedo, hsel, hlook, hfut]
        | cons next newFuture =>
          simp only [handleRedo, hsel, hlook, hfut]
          by_cases hid : id = note.id
          · right
            subst hid
            simp [getHistory, lookupHistory_setHistoryEntry_self, hlook, hfut]
          · left
            simp [getHistory, lookupHistory_setHistoryEntry_ne _ _ _ _ hid]
  · intro id s
    unfold selectNote
    by_cases h : s.selectedNoteId = id <;> simp [h]
  · intro h note
    simp [getHistory, hsave]

/-- Witness for C2: pushing a snapshot of note `a` clears its two-element
redo stack and leaves the record of `b` alone. -/
theorem push_clears_future_witness :
    lookupHistory (saveToHistory
        [("a", ⟨[], [⟨"x", "y"⟩, ⟨"u", "v"⟩]⟩), ("b", ⟨[⟨"p", "q"⟩], []⟩)]
        ⟨"a", "T", "C", "E", 0, 0, false⟩) "b"
      = lookupHistory [("a", ⟨[], [⟨"x", "y"⟩, ⟨"u", "v"⟩]⟩), ("b", ⟨[⟨"p", "q"⟩], []⟩)] "b" ∧
    (getHistory (saveToHistory
        [("a", ⟨[], [⟨"x", "y"⟩, ⟨"u", "v"⟩]⟩), ("b", ⟨[⟨"p", "q"⟩], []⟩)]
        ⟨"a", "T", "C", "E", 0, 0, false⟩) "b") = ⟨[⟨"p", "q"⟩], []⟩ := by
  constructor
  · exact push_clears_future.2.1
      [("a", ⟨[], [⟨"x", "y"⟩, ⟨"u", "v"⟩]⟩), ("b", ⟨[⟨"p", "q"⟩], []⟩)]
      ⟨"a", "T", "C", "E", 0, 0, false⟩ "b" (by decide)
  · decide

/-- Specialization of `selectedNote_update` to the record shape produced by
the handlers. -/
theorem selectedNote_update3 (s : AppState) (note : Note) (u : NoteUpdates) (t : Nat)
    (h' : HistMap) (tm : Option Nat)
    (hsel : selectedNote s = some note) :
    selectedNote
        { s with history := h', typingTimeout := tm,
                 notes := updateNoteState s.notes note.id u t }
      = some (applyUpdates note u t) :=
  selectedNote_update s _ note u t hsel rfl rfl

/-- C3: where undo is enabled (non-empty `past`), undo followed by redo
restores the selected note's title and content exactly and returns the
record's two stacks to their pre-undo contents; symmetrically, where redo is
enabled, redo followed by undo restores the exact pre-redo state. -/
theorem undo_redo_inverse :
    (∀ (t1 t2 : Nat) (s : AppState) (note : Note) (nh : HistoryState)
        (ps : List NoteSnapshot) (r : NoteSnapshot),
      selectedNote s = some note →
      lookupHistory s.history note.id = some nh →
      nh.past = ps ++ [r] →
      lookupHistory (handleRedo t2 (handleUndo t1 s)).history note.id = some nh ∧
      ∃ note' : Note,
        selectedNote (handleRedo t2 (handleUndo t1 s)) = some note' ∧
        note'.title = note.title ∧ note'.content = note.content) ∧
    (∀ (t1 t2 : Nat) (s : AppState) (note : Note) (nh : HistoryState)
        (r : NoteSnapshot) (fs : List NoteSnapshot),
      selectedNote s = some note →
      lookupHistory s.history note.id = some nh →
      nh.future = r :: fs →
      lookupHistory (handleUndo t2 (handleRedo t1 s)).history note.id = some nh ∧
      ∃ note' : Note,
        selectedNote (handleUndo t2 (handleRedo t1 s)) = some note' ∧
        note'.title = note.title ∧ note'.content = note.content) := by
  constructor
  · intro t1 t2 s note nh ps r hsel hlook hpast
    have h1 := handleUndo_eq t1 s note nh ps r hsel hlook hpast
    have hsel1 : selectedNote (handleUndo t1 s)
        = some { note with title := r.title, content := r.content, updatedAt := t1 } := by
      rw [h1]
      exact selectedNote_update s _ note ⟨some r.title, some r.content, none⟩ t1 hsel rfl rfl
    have hlook1 : lookupHistory (handleUndo t1 s).history
        ({ note with title := r.title, content := r.content, updatedAt := t1 } : Note).id
        = some ⟨ps, ⟨note.title, note.content⟩ :: nh.future⟩ := by
      rw [h1]
      exact lookupHistory_setHistoryEntry_self _ _ _
    have h2 := handleRedo_eq t2 (handleUndo t1 s)
      { note with title := r.title, content := r.content, updatedAt := t1 }
      ⟨ps, ⟨note.title, note.content⟩ :: nh.future⟩
      ⟨note.title, note.content⟩ nh.future hsel1 hlook1 rfl
    constructor
    · rw [h2]
      dsimp only
      rw [lookupHistory_setHistoryEntry_self, ← hpast]
    · refine ⟨applyUpdates { note with title := r.title, content := r.content, updatedAt := t1 }
        ⟨some note.title, some note.content, none⟩ t2, ?_, rfl, rfl⟩
      rw [h2]
      exact selectedNote_update3 (handleUndo t1 s)
        { note with title := r.title, content := r.content, updatedAt := t1 }
        ⟨some note.title, some note.content, none⟩ t2 _ _ hsel1
  · intro t1 t2 s note nh r fs hsel hlook hfut
    have h1 := handleRedo_eq t1 s note nh r fs hsel hlook hfut
    have hsel1 : selectedNote (handleRedo t1 s)
        = some { note with title := r.title, content := r.content, updatedAt := t1 } := by
      rw [h1]
      exact selectedNote_update s _ note ⟨some r.title, some r.content, none⟩ t1 hsel rfl rfl
    have hlook1 : lookupHistory (handleRedo t1 s).history
        ({ note with title := r.title, content := r.content, updatedAt := t1 } : Note).id
        = some ⟨nh.past ++ [⟨note.title, note.content⟩], fs⟩ := by
      rw [h1]
      exact lookupHistory_setHistoryEntry_self _ _ _
    have h2 := handleUndo_eq t2 (handleRedo t1 s)
      { note with title := r.title, content := r.content, updatedAt := t1 }
      ⟨nh.past ++ [⟨note.title, note.content⟩], fs⟩
      nh.past ⟨note.title, note.content⟩ hsel1 hlook1 rfl
    constructor
    · rw [h2]
      dsimp only
      rw [lookupHistory_setHistoryEntry_self, ← hfut]
    · refine ⟨applyUpdates { note with title := r.title, content := r.content, updatedAt := t1 }
        ⟨some note.title, some note.content, none⟩ t2, ?_, rfl, rfl⟩
      rw [h2]
      exact selectedNote_update3 (handleRedo t1 s)
        { note with title := r.title, content := r.content, updatedAt := t1 }
        ⟨some note.title, some note.content, none⟩ t2 _ _ hsel1

set_option maxRecDepth 8000 in
/-- Witness for C3 on a concrete state: the record's stacks after undo then
redo (and after redo then undo) are exactly the original ones. -/
theorem undo_redo_inverse_witness :
    lookupHistory (handleRedo 8 (handleUndo 7 ⟨[⟨"n1", "T1", "C1", "E", 5, 1, false⟩],
        some "n1", [("n1", ⟨[⟨"T0", "C0"⟩], [⟨"T2", "C2"⟩]⟩)], none⟩)).history "n1"
      = some ⟨[⟨"T0", "C0"⟩], [⟨"T2", "C2"⟩]⟩ ∧
    lookupHistory (handleUndo 8 (handleRedo 7 ⟨[⟨"n1", "T1", "C1", "E", 5, 1, false⟩],
        some "n1", [("n1", ⟨[⟨"T0", "C0"⟩], [⟨"T2", "C2"⟩]⟩)], none⟩)).history "n1"
      = some ⟨[⟨"T0", "C0"⟩], [⟨"T2", "C2"⟩]⟩ := by
  constructor
  · exact (undo_redo_inverse.1 7 8
      ⟨[⟨"n1", "T1", "C1", "E", 5, 1, false⟩], some "n1",
        [("n1", ⟨[⟨"T0", "C0"⟩], [⟨"T2", "C2"⟩]⟩)], none⟩
      ⟨"n1", "T1", "C1", "E", 5, 1, false⟩
      ⟨[⟨"T0", "C0"⟩], [⟨"T2", "C2"⟩]⟩ [] ⟨"T0", "C0"⟩
      (by decide) (by decide) rfl).1
  · exact (undo_redo_inverse.2 7 8
      ⟨[⟨"n1", "T1", "C1", "E", 5, 1, false⟩], some "n1",
        [("n1", ⟨[⟨"T0", "C0"⟩], [⟨"T2", "C2"⟩]⟩)], none⟩
      ⟨"n1", "T1", "C1", "E", 5, 1, false⟩
      ⟨[⟨"T0", "C0"⟩], [⟨"T2", "C2"⟩]⟩ ⟨"T2", "C2"⟩ []
      (by decide) (by decide) rfl).1

/-- C10: applying a restored snapshot through undo or redo writes only
`title`, `content`, and the `updatedAt` stamp; `id`, `createdAt`,
`isFavorite`, and in particular the derived `excerpt` keep their
pre-operation values (the excerpt is recomputed only by content edits in
`handleTextChange`), so after an undo the excerpt can disagree with the
first 100 characters of the restored content — as the concrete run in the
last conjunct shows. -/
theorem undo_redo_excerpt_frame :
    (∀ (t : Nat) (s : AppState) (note : Note) (nh : HistoryState)
        (ps : List NoteSnapshot) (r : NoteSnapshot),
      selectedNote s = some note →
      lookupHistory s.history note.id = some nh →
      nh.past = ps ++ [r] →
      selectedNote (handleUndo t s)
        = some { note with title := r.title, content := r.content, updatedAt := t }) ∧
    (∀ (t : Nat) (s : AppState) (note : Note) (nh : HistoryState)
        (r : NoteSnapshot) (fs : List NoteSnapshot),
      selectedNote s = some note →
      lookupHistory s.history note.id = some nh →
      nh.future = r :: fs →
      selectedNote (handleRedo t s)
        = some { note with title := r.title, content := r.content, updatedAt := t }) ∧
    (selectedNote (runEvents ⟨[⟨"n1", "T", "C", "C", 0, 0, false⟩], some "n1", [], none⟩
        [(0, Event.edit EditField.content "C1"), (2000, Event.undo)])
      = some ⟨"n1", "T", "C", "C1", 2000, 0, false⟩ ∧
     ("C1" : String) ≠ excerptOf "C") := by
  refine ⟨?_, ?_, ?_, ?_⟩
  · intro t s note nh ps r hsel hlook hpast
    rw [handleUndo_eq t s note nh ps r hsel hlook hpast]
    exact selectedNote_update3 s note ⟨some r.title, some r.content, none⟩ t _ _ hsel
  · intro t s note nh r fs hsel hlook hfut
    rw [handleRedo_eq t s note nh r fs hsel hlook hfut]
    exact selectedNote_update3 s note ⟨some r.title, some r.content, none⟩ t _ _ hsel
  · set_option maxRecDepth 8000 in decide
  · set_option maxRecDepth 8000 in decide

set_option maxRecDepth 8000 in
/-- Witness for C10: undoing the sample state of C1 keeps the old excerpt
`E` while restoring title `T0` and content `C0`. -/
theorem undo_redo_excerpt_frame_witness :
    selectedNote (handleUndo 9 ⟨[⟨"n1", "T1", "C1", "E", 5, 1, false⟩], some "n1",
        [("n1", ⟨[⟨"T0", "C0"⟩], [⟨"T2", "C2"⟩]⟩)], none⟩)
      = some ⟨"n1", "T0", "C0", "E", 9, 1, false⟩ :=
  (undo_redo_excerpt_frame.1 9
    ⟨[⟨"n1", "T1", "C1", "E", 5, 1, false⟩], some "n1",
      [("n1", ⟨[⟨"T0", "C0"⟩], [⟨"T2", "C2"⟩]⟩)], none⟩
    ⟨"n1", "T1", "C1", "E", 5, 1, false⟩
    ⟨[⟨"T0", "C0"⟩], [⟨"T2", "C2"⟩]⟩ [] ⟨"T0", "C0"⟩
    (by decide) (by decide) rfl)

/-- Replacing the timer slot by its own value is the identity. -/
theorem AppState_eta_timer (s : AppState) (x : Option Nat) (hx : x = s.typingTimeout) :
    ({ s with typingTimeout := x } : AppState) = s := by
  rw [hx]

/-- A session-start push grows the target's `past` by exactly one. -/
theorem pastLen_saveToHistory (h : HistMap) (note : Note) :
    pastLen (saveToHistory h note) note.id = pastLen h note.id + 1 := by
  unfold pastLen saveToHistory getHistory
  rw [lookupHistory_setHistoryEntry_self]
  simp

/-- While the typing timer armed at `tprev` is still pending, edits arriving
within the quiet interval never touch the history map. -/
theorem history_frozen_while_pending (es : List (Nat × EditField × String)) :
    ∀ (tprev : Nat) (s : AppState) (note : Note),
      selectedNote s = some note →
      s.typingTimeout = some (tprev + 1000) →
      gapsUnder tprev es = true →
      (runEvents s (editEvents es)).history = s.history := by
  induction es with
  | nil =>
    intro tprev s note hsel htm hg
    rfl
  | cons e rest ih =>
    obtain ⟨t, f, v⟩ := e
    intro tprev s note hsel htm hg
    simp only [gapsUnder, Bool.and_eq_true, decide_eq_true_eq] at hg
    obtain ⟨⟨hle, hlt⟩, hrest⟩ := hg
    have hfire : fireTimerAt t s.typingTimeout = s.typingTimeout := by
      rw [htm]
      simp [fireTimerAt, Nat.not_le.mpr hlt]
    have hstep : stepEvent s (t, Event.edit f v) = handleTextChange t f v s := by
      show handleTextChange t f v { s with typingTimeout := fireTimerAt t s.typingTimeout } = _
      rw [AppState_eta_timer s _ hfire]
    have htm' : s.typingTimeout ≠ none := by
      rw [htm]
      exact Option.some_ne_none _
    have hedit := handleTextChange_pending t f v s note hsel htm'
    have hsel' : selectedNote
        { s with
          typingTimeout := some (t + 1000)
          notes := updateNoteState s.notes note.id (editUpdates f v note) t }
        = some (applyUpdates note (editUpdates f v note) t) :=
      selectedNote_update3 s note (editUpdates f v note) t s.history (some (t + 1000)) hsel
    have hrun : runEvents s (editEvents ((t, f, v) :: rest))
        = runEvents
          { s with
            typingTimeout := some (t + 1000)
            notes := updateNoteState s.notes note.id (editUpdates f v note) t }
          (editEvents rest) := by
      show runEvents (stepEvent s (t, Event.edit f v)) (editEvents rest) = _
      rw [hstep, hedit]
    rw [hrun, ih t _ (applyUpdates note (editUpdates f v note) t) hsel' rfl hrest]

/-- C4: for any burst of edits to the selected note whose first edit finds an
idle timer and whose inter-edit gaps all stay under the 1000 ms quiet
interval, exactly one snapshot is pushed to that note's `past`, however many
edits the burst holds; and for two edits separated by a gap exceeding the
quiet interval (so that the deferred timer fires between them), two snapshots
are pushed. -/
theorem session_coalescing_splitting :
    (∀ (s : AppState) (note : Note) (t0 : Nat) (f0 : EditField) (v0 : String)
        (rest : List (Nat × EditField × String)),
      selectedNote s = some note →
      s.typingTimeout = none →
      gapsUnder t0 rest = true →
      pastLen (runEvents s (editEvents ((t0, f0, v0) :: rest))).history note.id
        = pastLen s.history note.id + 1) ∧
    (∀ (s : AppState) (note : Note) (t1 t2 : Nat) (f1 f2 : EditField) (v1 v2 : String),
      selectedNote s = some note →
      s.typingTimeout = none →
      t1 + 1000 < t2 →
      pastLen (runEvents s (editEvents [(t1, f1, v1), (t2, f2, v2)])).history note.id
        = pastLen s.history note.id + 2) := by
  constructor
  · intro s note t0 f0 v0 rest hsel htm hg
    have hstep : stepEvent s (t0, Event.edit f0 v0) = handleTextChange t0 f0 v0 s := by
      show handleTextChange t0 f0 v0 { s with typingTimeout := fireTimerAt t0 s.typingTimeout }
          = _
      rw [AppState_eta_timer s _ (by rw [htm]; rfl)]
    have hedit := handleTextChange_idle t0 f0 v0 s note hsel htm
    have hsel' : selectedNote
        { s with
          history := saveToHistory s.history note
          typingTimeout := some (t0 + 1000)
          notes := updateNoteState s.notes note.id (editUpdates f0 v0 note) t0 }
        = some (applyUpdates note (editUpdates f0 v0 note) t0) :=
      selectedNote_update3 s note (editUpdates f0 v0 note) t0 _ _ hsel
    have hrun : runEvents s (editEvents ((t0, f0, v0) :: rest))
        = runEvents
          { s with
            history := saveToHistory s.history note
            typingTimeout := some (t0 + 1000)
            notes := updateNoteState s.notes note.id (editUpdates f0 v0 note) t0 }
          (editEvents rest) := by
      show runEvents (stepEvent s (t0, Event.edit f0 v0)) (editEvents rest) = _
      rw [hstep, hedit]
    rw [hrun, history_frozen_while_pending rest t0 _
      (applyUpdates note (editUpdates f0 v0 note) t0) hsel' rfl hg]
    exact pastLen_saveToHistory s.history note
  · intro s note t1 t2 f1 f2 v1 v2 hsel htm hgap
    have hstep1 : stepEvent s (t1, Event.edit f1 v1) = handleTextChange t1 f1 v1 s := by
      show handleTextChange t1 f1 v1 { s with typingTimeout := fireTimerAt t1 s.typingTimeout }
          = _
      rw [AppState_eta_timer s _ (by rw [htm]; rfl)]
    have hedit1 := handleTextChange_idle t1 f1 v1 s note hsel htm
    have hfire2 : fireTimerAt t2 (some (t1 + 1000)) = none := by
      simp [fireTimerAt, Nat.le_of_lt hgap]
    have hstep2 : stepEvent
          { s with
            history := saveToHistory s.history note
            typingTimeout := some (t1 + 1000)
            notes := updateNoteState s.notes note.id (editUpdates f1 v1 note) t1 }
          (t2, Event.edit f2 v2)
        = handleTextChange t2 f2 v2
          { s with
            history := saveToHistory s.history note
            typingTimeout := none
            notes := updateNoteState s.notes note.id (editUpdates f1 v1 note) t1 } := by
      show handleTextChange t2 f2 v2 _ = _
      rw [show fireTimerAt t2 (some (t1 + 1000)) = none from hfire2]
    have hselP : selectedNote
        { s with
          history := saveToHistory s.history note
          typingTimeout := none
          notes := updateNoteState s.notes note.id (editUpdates f1 v1 note) t1 }
        = some (applyUpdates note (editUpdates f1 v1 note) t1) :=
      selectedNote_update3 s note (editUpdates f1 v1 note) t1 _ _ hsel
    have hedit2 := handleTextChange_idle t2 f2 v2
      { s with
        history := saveToHistory s.history note
        typingTimeout := none
        notes := updateNoteState s.notes note.id (editUpdates f1 v1 note) t1 }
      (applyUpdates note (editUpdates f1 v1 note) t1) hselP rfl
    have hrun : runEvents s (editEvents [(t1, f1, v1), (t2, f2, v2)])
        = stepEvent (stepEvent s (t1, Event.edit f1 v1)) (t2, Event.edit f2 v2) := rfl
    rw [hrun, hstep1, hedit1, hstep2, hedit2]
    exact Eq.trans
      (pastLen_saveToHistory (saveToHistory s.history note)
        (applyUpdates note (editUpdates f1 v1 note) t1))
      (congrArg (· + 1) (pastLen_saveToHistory s.history note))

set_option maxRecDepth 8000 in
/-- Witness for C4: two sub-second edits push one snapshot; the same two
edits 1500 ms apart push two. -/
theorem session_coalescing_splitting_witness :
    pastLen (runEvents ⟨[⟨"n1", "T", "C", "C", 0, 0, false⟩], some "n1", [], none⟩
        (editEvents [(0, EditField.title, "T1"), (500, EditField.title, "T2")])).history "n1"
      = pastLen ([] : HistMap) "n1" + 1 ∧
    pastLen (runEvents ⟨[⟨"n1", "T", "C", "C", 0, 0, false⟩], some "n1", [], none⟩
        (editEvents [(0, EditField.title, "T1"), (1500, EditField.title, "T2")])).history "n1"
      = pastLen ([] : HistMap) "n1" + 2 := by
  constructor
  · exact session_coalescing_splitting.1
      ⟨[⟨"n1", "T", "C", "C", 0, 0, false⟩], some "n1", [], none⟩
      ⟨"n1", "T", "C", "C", 0, 0, false⟩ 0 EditField.title "T1"
      [(500, EditField.title, "T2")] (by decide) rfl (by decide)
  · exact session_coalescing_splitting.2
      ⟨[⟨"n1", "T", "C", "C", 0, 0, false⟩], some "n1", [], none⟩
      ⟨"n1", "T", "C", "C", 0, 0, false⟩ 0 1500 EditField.title EditField.title "T1" "T2"
      (by decide) rfl (by decide)

set_option maxRecDepth 8000 in
/-- C5 (defect in the code): `handleUndo` and `handleRedo` leave the pending
typing-session timer exactly as they found it — nothing in either handler
touches the timer slot.  Concretely: an edit at t = 0 arms the timer to fire
at t = 1000 and pushes one snapshot; an undo at t = 500 still leaves the slot
armed (`some 1000`, not idle), so the next keystroke at t = 600 is treated as
a continuation of the stale session — no snapshot of the restored state is
pushed (`past` stays empty) and the redo stack even survives the edit
uncleared. -/
theorem undo_redo_leave_timer_pending :
    (∀ (t : Nat) (s : AppState), (handleUndo t s).typingTimeout = s.typingTimeout) ∧
    (∀ (t : Nat) (s : AppState), (handleRedo t s).typingTimeout = s.typingTimeout) ∧
    ((runEvents ⟨[⟨"n1", "T", "C", "C", 0, 0, false⟩], some "n1", [], none⟩
        [(0, Event.edit EditField.title "T1"), (500, Event.undo)]).typingTimeout
      = some 1000 ∧
     pastLen (runEvents ⟨[⟨"n1", "T", "C", "C", 0, 0, false⟩], some "n1", [], none⟩
        [(0, Event.edit EditField.title "T1"), (500, Event.undo)]).history "n1" = 0 ∧
     futureLen (runEvents ⟨[⟨"n1", "T", "C", "C", 0, 0, false⟩], some "n1", [], none⟩
        [(0, Event.edit EditField.title "T1"), (500, Event.undo)]).history "n1" = 1 ∧
     pastLen (runEvents ⟨[⟨"n1", "T", "C", "C", 0, 0, false⟩], some "n1", [], none⟩
        [(0, Event.edit EditField.title "T1"), (500, Event.undo),
         (600, Event.edit EditField.title "T2")]).history "n1" = 0 ∧
     futureLen (runEvents ⟨[⟨"n1", "T", "C", "C", 0, 0, false⟩], some "n1", [], none⟩
        [(0, Event.edit EditField.title "T1"), (500, Event.undo),
         (600, Event.edit EditField.title "T2")]).history "n1" = 1) := by
  refine ⟨handleUndo_typingTimeout, handleRedo_typingTimeout, ?_⟩
  decide
